import Mathlib

/-!
Shallow embedding of the distribution-raytracer core of this repository:
the light model (`src/igl/light.h`), the material model (`src/igl/material.h`)
and the radiance integrator and pixel driver (`src/igl/distraytrace.cpp`).

Machine floats are modelled by exact rationals.  The external square-root
and power primitives of the vmath layer (used by `normalize`, `length` and
the Phong lobe) have no exact rational counterpart, so every definition
that needs them takes them as explicit function arguments `qsqrt` / `qpow`;
theorems that depend on their behaviour state the needed property
(positivity) as a hypothesis.  Hard errors (`ERROR_IF_NOT`,
`NOT_IMPLEMENTED_ERROR`, the unchecked `cast<Quad>`) are modelled by
`Option`: `none` is an abort.
-/

namespace Igl

/-- Exact model of `vec3f`: three rational components. -/
structure Vec3 where
  x : ℚ
  y : ℚ
  z : ℚ
deriving DecidableEq

/-- Modelled from the spec: the zero vector `zero3f` of the external vmath layer. -/
def zero3f : Vec3 := ⟨0, 0, 0⟩

/-- Modelled from the spec: the all-ones vector `one3f` of the external vmath layer. -/
def one3f : Vec3 := ⟨1, 1, 1⟩

/-- Modelled from the spec: the unit z vector `z3f` of the external vmath layer. -/
def z3f : Vec3 := ⟨0, 0, 1⟩

instance : Add Vec3 := ⟨fun a b => ⟨a.x + b.x, a.y + b.y, a.z + b.z⟩⟩

instance : Sub Vec3 := ⟨fun a b => ⟨a.x - b.x, a.y - b.y, a.z - b.z⟩⟩

instance : Neg Vec3 := ⟨fun a => ⟨-a.x, -a.y, -a.z⟩⟩

instance : Mul Vec3 := ⟨fun a b => ⟨a.x * b.x, a.y * b.y, a.z * b.z⟩⟩

instance : HMul Vec3 ℚ Vec3 := ⟨fun a q => ⟨a.x * q, a.y * q, a.z * q⟩⟩

instance : HMul ℚ Vec3 Vec3 := ⟨fun q a => ⟨q * a.x, q * a.y, q * a.z⟩⟩

instance : HDiv Vec3 ℚ Vec3 := ⟨fun a q => ⟨a.x / q, a.y / q, a.z / q⟩⟩

/-- Modelled from the spec: dot product of the external vmath layer. -/
def dot (a b : Vec3) : ℚ := a.x * b.x + a.y * b.y + a.z * b.z

/-- Modelled from the spec: squared length `lengthSqr` of the external vmath layer. -/
def lengthSqr (a : Vec3) : ℚ := dot a a

/-- Modelled from the spec: `length v = sqrt (lengthSqr v)` of the external vmath
layer, with the square root supplied as `qsqrt`. -/
def length (qsqrt : ℚ → ℚ) (a : Vec3) : ℚ := qsqrt (lengthSqr a)

/-- Modelled from the spec: `normalize v = v / length v` of the external vmath
layer, with the square root supplied as `qsqrt`. -/
def normalize (qsqrt : ℚ → ℚ) (a : Vec3) : Vec3 := a / length qsqrt a

/-- Modelled from the spec: cross product of the external vmath layer. -/
def cross (a b : Vec3) : Vec3 :=
  ⟨a.y * b.z - a.z * b.y, a.z * b.x - a.x * b.z, a.x * b.y - a.y * b.x⟩

/-- Modelled from the spec: mirror reflection `reflect v n = v - 2 dot(v,n) n`
of the external vmath layer. -/
def reflect (v n : Vec3) : Vec3 := v - n * (2 * dot v n)

/-- Exact model of `frame3f`: an origin and three basis vectors. -/
structure Frame3 where
  o : Vec3
  x : Vec3
  y : Vec3
  z : Vec3
deriving DecidableEq

/-- Modelled from the spec: the identity frame of the external vmath layer. -/
def identity_frame3f : Frame3 := ⟨zero3f, ⟨1, 0, 0⟩, ⟨0, 1, 0⟩, ⟨0, 0, 1⟩⟩

/-- Modelled from the spec: `transform_direction` maps a local direction to world
space through the frame's basis. -/
def transform_direction (f : Frame3) (v : Vec3) : Vec3 :=
  f.x * v.x + f.y * v.y + f.z * v.z

/-- Modelled from the spec: `transform_vector` transforms a vector like a
direction (frames carry no scaling). -/
def transform_vector (f : Frame3) (v : Vec3) : Vec3 := transform_direction f v

/-- Modelled from the spec: `transform_point_inverse` expresses a world point in
the frame's (orthonormal) coordinates. -/
def transform_point_inverse (f : Frame3) (p : Vec3) : Vec3 :=
  ⟨dot (p - f.o) f.x, dot (p - f.o) f.y, dot (p - f.o) f.z⟩

/-- Modelled from the spec: `ray3f`, reduced to the origin and direction the
core reads; intersection bounds live behind the external intersector. -/
structure Ray where
  e : Vec3
  d : Vec3

/-- Modelled from the spec: `ray3f::rayinf`, the "infinite" ray-distance
constant of the external vmath layer (its literal value is immaterial here). -/
def rayinf : ℚ := 1000000

/-- Modelled from the spec: `ray3f::segment(a,b)`, a visibility segment from `a`
to `b`; the epsilon offsets live behind the external intersector. -/
def Ray.segment (a b : Vec3) : Ray := ⟨a, b - a⟩

/-- Modelled from the spec: the float constant `pif` (π); its literal value is
immaterial to every claim. -/
def pif : ℚ := 3.14159265

/-- Modelled from the spec: shapes (`shape.h` is outside the provided sources).
Area lights reference a `Shape` that "should support sampling"; `light.h`
reads `width`/`height` after an unchecked `cast<Quad>`, and variants other
than the rectangular quad exist in the repository, so the cast is partial. -/
inductive Shape where
  | quad (width height : ℚ)
  | sphere (radius : ℚ)
deriving DecidableEq

/-- Model of the unchecked `cast<Quad>(shape)` on a nullable shape pointer:
defined (returning the quad's width and height) only for a non-null quad. -/
def castQuad : Option Shape → Option (ℚ × ℚ)
  | some (.quad w h) => some (w, h)
  | _ => none

/-- Tagged-variant model of `Light` (light.h): point, directional, area and
environment sources, each carrying its frame and intensity. -/
inductive Light where
  | point (frame : Frame3) (intensity : Vec3)
  | directional (frame : Frame3) (intensity : Vec3)
  | area (frame : Frame3) (intensity : Vec3) (shape : Option Shape) (shadow_samples : ℕ)
  | env (frame : Frame3) (intensity : Vec3) (envmap : Bool) (hemisphere : Bool)
      (shadow_samples : ℕ) (importance_sampling : Bool)

/-- The frame stored on the abstract `Light` base. -/
def Light.frame : Light → Frame3
  | .point f _ => f
  | .directional f _ => f
  | .area f _ _ _ => f
  | .env f _ _ _ _ _ => f

/-- Whether a light is the environment variant. -/
def Light.isEnv : Light → Bool
  | .env _ _ _ _ _ _ => true
  | _ => false

/-- light.h `light_shadow_nsamples`: requested number of shadow rays — the
configured count for area and environment lights, else 1. -/
def light_shadow_nsamples : Light → ℕ
  | .area _ _ _ n => n
  | .env _ _ _ _ n _ => n
  | _ => 1

/-- light.h `ShadowSample`: radiance, direction toward the light, distance and
sample pdf. -/
structure ShadowSample where
  radiance : Vec3
  dir : Vec3
  dist : ℚ
  pdf : ℚ
deriving DecidableEq

/-- light.h `light_shadow_sample`: the deterministic shadow sample toward the
light's nominal position, built in the light's local frame and transformed
to world space. -/
def light_shadow_sample (qsqrt : ℚ → ℚ) (light : Light) (p : Vec3) : ShadowSample :=
  let pl := transform_point_inverse light.frame p
  let ss : ShadowSample :=
    match light with
    | .point _ intensity =>
        ⟨intensity / lengthSqr pl, normalize qsqrt (-pl), length qsqrt pl, 1⟩
    | .directional _ intensity =>
        ⟨intensity, -z3f, rayinf, 1⟩
    | .area _ intensity _ _ =>
        ⟨intensity / lengthSqr pl, normalize qsqrt (-pl), length qsqrt pl, 1⟩
    | .env _ intensity _ _ _ _ =>
        ⟨intensity * pif, normalize qsqrt (-pl), rayinf, 1⟩
  ⟨ss.radiance, transform_direction light.frame ss.dir, ss.dist, ss.pdf⟩

/-- The light frame with its origin jittered within the quad's extent by the
two uniform draws, as built at light.h lines 123-129. -/
def areaShiftFrame (frame : Frame3) (w h u_rand v_rand : ℚ) : Frame3 :=
  ⟨frame.o + transform_vector identity_frame3f ⟨(1/2 - u_rand) * w, (1/2 - v_rand) * h, 0⟩,
   frame.x, frame.y, frame.z⟩

/-- light.h `rand_light_shadow_sample`: the stochastic (soft-shadow) sample.
For an area light the quad cast is unchecked in the source; here it is the
partiality of the operation (`none` on a missing or non-quad shape).  Every
other variant delegates to the deterministic sample. -/
def rand_light_shadow_sample (qsqrt : ℚ → ℚ) (light : Light) (p : Vec3)
    (u_rand v_rand : ℚ) : Option ShadowSample :=
  match light with
  | .area frame intensity shape _ =>
      match castQuad shape with
      | none => none
      | some (w, h) =>
          let rand_point := areaShiftFrame frame w h u_rand v_rand
          let pl := transform_point_inverse rand_point p
          let dirl := normalize qsqrt (-pl)
          let radiance := (intensity / lengthSqr pl) * dot z3f (-dirl)
          some ⟨radiance, transform_direction rand_point dirl, length qsqrt pl, 1 / (w * h)⟩
  | _ => some (light_shadow_sample qsqrt light p)

/-- light.h `light_sample_background`: radiance for an escaped ray — the
intensity for environment lights, zero otherwise. -/
def light_sample_background (light : Light) (wo : Vec3) : Vec3 :=
  match light with
  | .env _ intensity _ _ _ _ => intensity
  | _ => zero3f

/-- Tagged-variant model of the concrete material variants (material.h):
Lambert, Phong and emissive Lambert, each with its coefficients and the
bound-or-not state of its texture slots (a slot is `true` when a texture is
still bound). -/
inductive MatBody where
  | lambert (diffuse : Vec3) (diffuse_texture : Bool)
  | phong (diffuse specular : Vec3) (exponent : ℚ) (reflection : Vec3) (blur_size : ℚ)
      (diffuse_texture specular_texture exponent_texture reflection_texture : Bool)
      (use_reflected : Bool)
  | lambertEmission (emission diffuse : Vec3) (emission_texture diffuse_texture : Bool)

/-- material.h `Material`: the abstract base carries an optional normal-map
slot; the variant payload carries the rest. -/
structure Material where
  normal_texture : Bool
  body : MatBody

/-- material.h `material_has_textures`: true when any variant-relevant texture
slot is still bound. -/
def material_has_textures (m : Material) : Bool :=
  match m.body with
  | .lambert _ dt => dt
  | .phong _ _ _ _ _ dt st et rt _ => dt || st || et || rt
  | .lambertEmission _ _ et dt => dt || et

/-- material.h `material_shading_frame`: returns the geometric frame unchanged
(normal perturbation is not implemented in this core). -/
def material_shading_frame (m : Material) (frame : Frame3) (texcoord : ℚ × ℚ) : Frame3 :=
  frame

/-- material.h `material_shading_textures` (the spec's `resolve-at`): builds a
fresh instance carrying the base coefficients through unchanged with every
texture slot unbound. -/
def material_shading_textures (m : Material) (texcoord : ℚ × ℚ) : Material :=
  match m.body with
  | .lambert d _ => ⟨false, .lambert d false⟩
  | .phong d s e r bl _ _ _ _ ur => ⟨false, .phong d s e r bl false false false false ur⟩
  | .lambertEmission e d _ _ => ⟨false, .lambertEmission e d false false⟩

/-- material.h `material_diffuse_albedo`: the diffuse color; hard error
(`none`) when textures are still bound. -/
def material_diffuse_albedo (m : Material) : Option Vec3 :=
  if material_has_textures m then none
  else some (match m.body with
    | .lambert d _ => d
    | .phong d _ _ _ _ _ _ _ _ _ => d
    | .lambertEmission _ d _ _ => d)

/-- material.h `material_emission`: emission of the emissive variant when the
outgoing direction is above the shading normal, zero otherwise; hard error
when textures are still bound. -/
def material_emission (m : Material) (frame : Frame3) (wo : Vec3) : Option Vec3 :=
  if material_has_textures m then none
  else some (match m.body with
    | .lambertEmission e _ _ _ => if dot wo frame.z ≤ 0 then zero3f else e
    | _ => zero3f)

/-- material.h `material_brdfcos`: BRDF times incoming cosine; zero when either
direction is at or below the shading hemisphere; hard error when textures are
still bound.  The float `pow` of the Phong lobe is supplied as `qpow`. -/
def material_brdfcos (qpow : ℚ → ℚ → ℚ) (qsqrt : ℚ → ℚ) (m : Material)
    (frame : Frame3) (wi wo : Vec3) : Option Vec3 :=
  if material_has_textures m then none
  else some (match m.body with
    | .lambert d _ =>
        if dot wi frame.z ≤ 0 ∨ dot wo frame.z ≤ 0 then zero3f
        else d * |dot wi frame.z| / pif
    | .phong d s e _ _ _ _ _ _ ur =>
        if dot wi frame.z ≤ 0 ∨ dot wo frame.z ≤ 0 then zero3f
        else if ur then
          let wr := reflect (-wi) frame.z
          (d / pif + (e + 8) * s * qpow (max (dot wo wr) 0) e / (8 * pif)) * |dot wi frame.z|
        else
          let wh := normalize qsqrt (wi + wo)
          (d / pif + (e + 8) * s * qpow (max (dot frame.z wh) 0) e / (8 * pif)) * |dot wi frame.z|
    | .lambertEmission _ d _ _ =>
        if dot wi frame.z ≤ 0 ∨ dot wo frame.z ≤ 0 then zero3f
        else d * |dot wi frame.z| / pif)

/-- material.h `material_display_color`: a representative color per variant. -/
def material_display_color (m : Material) : Vec3 :=
  match m.body with
  | .lambert d _ => d
  | .phong d _ _ _ _ _ _ _ _ _ => d
  | .lambertEmission e _ _ _ => e

/-- material.h `BrdfSample`: sampled brdf-cos value, incoming direction and pdf
(defaults: zero value, zero direction, pdf 1). -/
structure BrdfSample where
  brdfcos : Vec3
  wi : Vec3
  pdf : ℚ
deriving DecidableEq

/-- The default-constructed `BrdfSample()` of material.h. -/
def BrdfSample.default : BrdfSample := ⟨zero3f, zero3f, 1⟩

/-- material.h `material_sample_reflection`: the perfect mirror sample — for
Phong only, with the reflection color and pdf 1, invalid when the outgoing
direction is below the surface; hard error when textures are still bound. -/
def material_sample_reflection (m : Material) (frame : Frame3) (wo : Vec3) :
    Option BrdfSample :=
  if material_has_textures m then none
  else some (match m.body with
    | .phong _ _ _ r _ _ _ _ _ _ =>
        if dot wo frame.z ≤ 0 then BrdfSample.default
        else ⟨r, reflect (-wo) frame.z, 1⟩
    | _ => BrdfSample.default)

/-- material.h `material_sample_blurryreflection`: mirror direction perturbed
in a disc of radius `blur_size`; hard error when textures are still bound. -/
def material_sample_blurryreflection (qsqrt : ℚ → ℚ) (m : Material) (frame : Frame3)
    (wo : Vec3) (suv : ℚ × ℚ) : Option BrdfSample :=
  if material_has_textures m then none
  else some (match m.body with
    | .phong _ _ _ r bl _ _ _ _ _ =>
        if dot wo frame.z ≤ 0 then BrdfSample.default
        else
          let wi := reflect (-wo) frame.z
          let u := normalize qsqrt (cross wi wo)
          let v := normalize qsqrt (cross wi u)
          ⟨r, normalize qsqrt (wi + (1/2 - suv.1) * bl * u + (1/2 - suv.2) * bl * v),
            1 / (bl * bl)⟩
    | _ => BrdfSample.default)

/-- Modelled from the spec: a drawn direction with its pdf, as produced by the
external `sample_direction_hemisphericalcos` of vmath/montecarlo.h. -/
structure DirSample where
  dir : Vec3
  pdf : ℚ

/-- material.h `material_sample_brdfcos`: cosine-weighted hemispherical draw
(the external sampler is supplied as `hemisample`), evaluated through
`material_brdfcos`; invalid when the outgoing direction is below the
surface; hard error when textures are still bound. -/
def material_sample_brdfcos (qpow : ℚ → ℚ → ℚ) (qsqrt : ℚ → ℚ)
    (hemisample : ℚ × ℚ → DirSample) (m : Material) (frame : Frame3) (wo : Vec3)
    (suv : ℚ × ℚ) (sl : ℚ) : Option BrdfSample :=
  if material_has_textures m then none
  else
    if dot wo frame.z ≤ 0 then some BrdfSample.default
    else
      let ds := hemisample suv
      let wi := transform_direction frame ds.dir
      match material_brdfcos qpow qsqrt m frame wi wo with
      | none => none
      | some b => some ⟨b, wi, ds.pdf⟩

/-- distraytrace.h (fields as read by distraytrace.cpp and listed by the spec):
the integrator options, with the shared random source modelled as a stream of
uniform floats indexed by how many draws have been consumed. -/
structure DistributionRaytraceOptions where
  background : Vec3
  ambient : Vec3
  samples : ℕ
  samples_ambient : ℕ
  shadows : Bool
  reflections : Bool
  cameralights : Bool
  doublesided : Bool
  max_depth : ℕ
  rng : ℕ → ℚ

/-- Modelled from the spec: the intersection record the external intersector
returns — hit frame, texture coordinate and material. -/
structure Intersection3f where
  frame : Frame3
  texcoord : ℚ × ℚ
  material : Material

/-- Modelled from the spec: the scene as the integrator sees it — the external
first-hit and any-hit intersector queries, the two light groups, and the
external depth-of-field camera (which may consume random draws). -/
structure Scene where
  intersect_first : Ray → Option Intersection3f
  intersect_any : Ray → Bool
  lights : List Light
  cameralights : List Light
  camera_ray_dof : (ℚ × ℚ) → (ℕ → ℚ) → ℕ → Ray × ℕ

/-- Modelled from the spec: `faceforward` flips the frame to face the incoming
ray (external vmath; the exact flip convention is immaterial to the claims). -/
def faceforward (f : Frame3) (d : Vec3) : Frame3 :=
  if 0 < dot d f.z then ⟨f.o, f.x, -f.y, -f.z⟩ else f

/-- distraytrace.cpp line 62: the repetition count (and contribution divisor)
the integrator uses for one light — the configured count for an `AreaLight`,
else 1. -/
def integratorShadowSamples : Light → ℕ
  | .area _ _ _ n => n
  | _ => 1

/-- distraytrace.cpp lines 63-78, one iteration of the shadow loop before the
division by the repetition count: zero when the drawn radiance is zero, when
the weighted contribution is zero, or when shadow testing finds an occluder;
otherwise `radiance * brdfcos / pdf`.  `none` is the material hard error. -/
def shadowContribOnce (qpow : ℚ → ℚ → ℚ) (qsqrt : ℚ → ℚ) (intersect_any : Ray → Bool)
    (shadows : Bool) (brdf : Material) (frame : Frame3) (wo : Vec3)
    (ss : ShadowSample) : Option Vec3 :=
  if ss.radiance = zero3f then some zero3f
  else
    match material_brdfcos qpow qsqrt brdf frame ss.dir wo with
    | none => none
    | some b =>
        let cl := ss.radiance * b / ss.pdf
        if cl = zero3f then some zero3f
        else if shadows then
          if intersect_any (Ray.segment frame.o (frame.o + ss.dir * ss.dist)) then some zero3f
          else some cl
        else some cl

/-- distraytrace.cpp lines 63-78: the repetition loop over one light's shadow
sample — each iteration adds the same per-iteration contribution divided by
the repetition count `count`. -/
def shadowRepeatLoop (qpow : ℚ → ℚ → ℚ) (qsqrt : ℚ → ℚ) (intersect_any : Ray → Bool)
    (shadows : Bool) (brdf : Material) (frame : Frame3) (wo : Vec3)
    (ss : ShadowSample) (count : ℕ) : ℕ → Option Vec3
  | 0 => some zero3f
  | k + 1 =>
      match shadowContribOnce qpow qsqrt intersect_any shadows brdf frame wo ss with
      | none => none
      | some v =>
          match shadowRepeatLoop qpow qsqrt intersect_any shadows brdf frame wo ss count k with
          | none => none
          | some rest => some (v / (count : ℚ) + rest)

/-- distraytrace.cpp lines 61-78: the whole direct-lighting step for one light —
draw one stochastic shadow sample from two fresh uniform draws, then run the
repetition loop; returns the added radiance and the advanced random index. -/
def directLightContrib (qpow : ℚ → ℚ → ℚ) (qsqrt : ℚ → ℚ) (intersect_any : Ray → Bool)
    (shadows : Bool) (rng : ℕ → ℚ) (brdf : Material) (frame : Frame3) (wo : Vec3)
    (l : Light) (n : ℕ) : Option (Vec3 × ℕ) :=
  match rand_light_shadow_sample qsqrt l frame.o (rng n) (rng (n + 1)) with
  | none => none
  | some ss =>
      let count := integratorShadowSamples l
      match shadowRepeatLoop qpow qsqrt intersect_any shadows brdf frame wo ss count count with
      | none => none
      | some v => some (v, n + 2)

/-- distraytrace.cpp lines 60-79: the direct-lighting loop over the selected
light group, threading the random index light by light. -/
def directLoop (qpow : ℚ → ℚ → ℚ) (qsqrt : ℚ → ℚ) (intersect_any : Ray → Bool)
    (shadows : Bool) (rng : ℕ → ℚ) (brdf : Material) (frame : Frame3) (wo : Vec3) :
    List Light → ℕ → Option (Vec3 × ℕ)
  | [], n => some (zero3f, n)
  | l :: ls, n =>
      match directLightContrib qpow qsqrt intersect_any shadows rng brdf frame wo l n with
      | none => none
      | some (v, n') =>
          match directLoop qpow qsqrt intersect_any shadows rng brdf frame wo ls n' with
          | none => none
          | some (rest, n'') => some (v + rest, n'')

/-- distraytrace.cpp lines 33-49: the ambient-occlusion loop — each iteration
draws three uniform floats, builds a hemispherical direction in the hit
frame and counts it when the any-hit query misses; returns the visible count
and the advanced random index. -/
def ambientVisible (qsqrt : ℚ → ℚ) (intersect_any : Ray → Bool) (rng : ℕ → ℚ)
    (iframe : Frame3) : ℕ → ℕ → ℕ × ℕ
  | 0, n => (0, n)
  | k + 1, n =>
      let hemi := transform_direction iframe
        (normalize qsqrt ⟨1/2 - rng n, 1/2 - rng (n + 1), |1/2 - rng (n + 2)|⟩)
      let vis : ℕ := if intersect_any ⟨iframe.o, hemi⟩ then 0 else 1
      let rest := ambientVisible qsqrt intersect_any rng iframe k (n + 3)
      (vis + rest.1, rest.2)

/-- distraytrace.cpp `_dist_raytrace_scene_ray`, with an explicit recursion
budget `fuel`; the wrapper below instantiates `fuel := max_depth - depth`,
which the `depth < max_depth` guard keeps positive at every recursive call,
so the `none`-on-exhausted-fuel branch is unreachable from the wrapper.  The
result carries the estimated radiance, the advanced random index, and (for
the depth-bound claim) the deepest `depth` argument reached. -/
def _dist_raytrace_scene_ray_fuel (qpow : ℚ → ℚ → ℚ) (qsqrt : ℚ → ℚ) (scene : Scene)
    (opts : DistributionRaytraceOptions) : ℕ → Ray → ℕ → ℕ → Option (Vec3 × ℕ × ℕ)
  | fuel, ray, depth, n =>
    match scene.intersect_first ray with
    | none => some (opts.background, n, depth)
    | some isec =>
        let wo := -ray.d
        let frame := material_shading_frame isec.material
          (if opts.doublesided then faceforward isec.frame ray.d else isec.frame) isec.texcoord
        let brdf := material_shading_textures isec.material isec.texcoord
        match material_diffuse_albedo brdf with
        | none => none
        | some albedo =>
            let amb : Vec3 × ℕ :=
              if opts.samples_ambient ≠ 0 then
                let va := ambientVisible qsqrt scene.intersect_any opts.rng isec.frame
                  opts.samples_ambient n
                (opts.ambient * ((va.1 : ℚ) / (opts.samples_ambient : ℚ)) * albedo, va.2)
              else (opts.ambient * albedo, n)
            match material_emission brdf frame wo with
            | none => none
            | some emi =>
                let ll := if opts.cameralights then scene.cameralights else scene.lights
                match directLoop qpow qsqrt scene.intersect_any opts.shadows opts.rng brdf
                    frame wo ll amb.2 with
                | none => none
                | some (cdir, n₂) =>
                    let c := amb.1 + emi + cdir
                    if opts.reflections ∧ depth < opts.max_depth then
                      match material_sample_reflection brdf frame wo with
                      | none => none
                      | some bs =>
                          if bs.brdfcos = zero3f then some (c, n₂, depth)
                          else
                            match fuel with
                            | 0 => none
                            | fuel' + 1 =>
                                match _dist_raytrace_scene_ray_fuel qpow qsqrt scene opts
                                    fuel' ⟨frame.o, bs.wi⟩ (depth + 1) n₂ with
                                | none => none
                                | some (crec, n₃, dm) => some (c + crec * bs.brdfcos, n₃, dm)
                    else some (c, n₂, depth)

/-- distraytrace.cpp `_dist_raytrace_scene_ray`: the recursive radiance
estimator; total because the `depth < max_depth` guard bounds the recursion
by `max_depth - depth`. -/
def _dist_raytrace_scene_ray (qpow : ℚ → ℚ → ℚ) (qsqrt : ℚ → ℚ) (scene : Scene)
    (opts : DistributionRaytraceOptions) (ray : Ray) (depth n : ℕ) :
    Option (Vec3 × ℕ × ℕ) :=
  _dist_raytrace_scene_ray_fuel qpow qsqrt scene opts (opts.max_depth - depth) ray depth n

/-- An options record equal to `opts` except that specular reflections are
disabled (used to state that `max_depth = 0` suppresses the recursion term). -/
def withoutReflections (opts : DistributionRaytraceOptions) : DistributionRaytraceOptions :=
  ⟨opts.background, opts.ambient, opts.samples, opts.samples_ambient, opts.shadows,
   false, opts.cameralights, opts.doublesided, opts.max_depth, opts.rng⟩

/-- The accumulation image: per-pixel running radiance sum and sample count,
plus the stored width and height the driver reads. -/
structure ImageBuffer where
  width : ℕ
  height : ℕ
  accum : ℕ → ℕ → Vec3
  samples : ℕ → ℕ → ℕ

/-- distraytrace.cpp lines 116-117: add one sample's radiance and bump the
sample count at one pixel. -/
def bumpPixel (b : ImageBuffer) (i j : ℕ) (c : Vec3) : ImageBuffer :=
  ⟨b.width, b.height,
   fun i' j' => if i' = i ∧ j' = j then b.accum i' j' + c else b.accum i' j',
   fun i' j' => if i' = i ∧ j' = j then b.samples i' j' + 1 else b.samples i' j'⟩

/-- distraytrace.cpp lines 112-118: one progressive sample at pixel (i,j) —
jitter the pixel coordinate with two uniform draws, ask the external camera
for a (possibly depth-of-field) ray, run the estimator at depth 0 and
accumulate at row `h-1-j`. -/
def sampleOnce (qpow : ℚ → ℚ → ℚ) (qsqrt : ℚ → ℚ) (scene : Scene)
    (opts : DistributionRaytraceOptions) (w h i j : ℕ) (b : ImageBuffer) (n : ℕ) :
    Option (ImageBuffer × ℕ) :=
  let u := ((i : ℚ) + (1/2 - opts.rng n)) / (w : ℚ)
  let v := ((j : ℚ) + (1/2 - opts.rng (n + 1))) / (h : ℚ)
  let rn := scene.camera_ray_dof (u, v) opts.rng (n + 2)
  (_dist_raytrace_scene_ray qpow qsqrt scene opts rn.1 0 rn.2).map
    (fun r => (bumpPixel b i (h - 1 - j) r.1, r.2.1))

/-- distraytrace.cpp line 111: the per-pixel loop over `opts.samples`
progressive samples. -/
def sampleLoop (qpow : ℚ → ℚ → ℚ) (qsqrt : ℚ → ℚ) (scene : Scene)
    (opts : DistributionRaytraceOptions) (w h i j : ℕ) :
    ℕ → ImageBuffer → ℕ → Option (ImageBuffer × ℕ)
  | 0, b, n => some (b, n)
  | k + 1, b, n =>
      match sampleOnce qpow qsqrt scene opts w h i j b n with
      | none => none
      | some (b', n') => sampleLoop qpow qsqrt scene opts w h i j k b' n'

/-- distraytrace.cpp line 109: the loop over the columns of one row. -/
def rowLoop (qpow : ℚ → ℚ → ℚ) (qsqrt : ℚ → ℚ) (scene : Scene)
    (opts : DistributionRaytraceOptions) (w h j : ℕ) :
    List ℕ → ImageBuffer → ℕ → Option (ImageBuffer × ℕ)
  | [], b, n => some (b, n)
  | i :: is, b, n =>
      match sampleLoop qpow qsqrt scene opts w h i j opts.samples b n with
      | none => none
      | some (b', n') => rowLoop qpow qsqrt scene opts w h j is b' n'

/-- distraytrace.cpp line 108: the loop over the rows of the image. -/
def gridLoop (qpow : ℚ → ℚ → ℚ) (qsqrt : ℚ → ℚ) (scene : Scene)
    (opts : DistributionRaytraceOptions) (w h : ℕ) :
    List ℕ → ImageBuffer → ℕ → Option (ImageBuffer × ℕ)
  | [], b, n => some (b, n)
  | j :: js, b, n =>
      match rowLoop qpow qsqrt scene opts w h j (List.range w) b n with
      | none => none
      | some (b', n') => gridLoop qpow qsqrt scene opts w h js b' n'

/-- distraytrace.cpp `dist_raytrace_scene_progressive`: the pixel sampling
driver — for every pixel, `opts.samples` jittered camera samples are
estimated and only added into the accumulation buffer. -/
def dist_raytrace_scene_progressive (qpow : ℚ → ℚ → ℚ) (qsqrt : ℚ → ℚ) (scene : Scene)
    (opts : DistributionRaytraceOptions) (buffer : ImageBuffer) (n : ℕ) :
    Option (ImageBuffer × ℕ) :=
  gridLoop qpow qsqrt scene opts buffer.width buffer.height
    (List.range buffer.height) buffer n

/-- Pointwise sum of a base buffer and a delta buffer (the delta's stored
dimensions win, matching a delta accumulated from a zeroed copy). -/
def addBuf (base d : ImageBuffer) : ImageBuffer :=
  ⟨d.width, d.height,
   fun i j => base.accum i j + d.accum i j,
   fun i j => base.samples i j + d.samples i j⟩

/-- A zeroed accumulation buffer with the same dimensions as `b`. -/
def zeroOf (b : ImageBuffer) : ImageBuffer :=
  ⟨b.width, b.height, fun _ _ => zero3f, fun _ _ => 0⟩

/-- A concrete scene whose intersector misses everything (used to instantiate
theorems at concrete inputs). -/
def missScene : Scene :=
  ⟨fun _ => none, fun _ => false, [], [], fun _ _ n => (⟨zero3f, z3f⟩, n)⟩

/-- Concrete integrator options: one sample, no ambient occlusion, shadows off,
reflections on with `max_depth = 0`, an all-zero random stream. -/
def probeOpts : DistributionRaytraceOptions :=
  ⟨⟨1, 2, 3⟩, zero3f, 1, 0, false, true, false, false, 0, fun _ => 0⟩

/-- The same concrete options with two samples per pixel. -/
def probeOpts2 : DistributionRaytraceOptions :=
  ⟨⟨1, 2, 3⟩, zero3f, 2, 0, false, true, false, false, 0, fun _ => 0⟩

/-- A concrete one-by-one accumulation buffer, initially zero. -/
def demoBuf : ImageBuffer := ⟨1, 1, fun _ _ => zero3f, fun _ _ => 0⟩


theorem Vec3.add_def (a b : Vec3) : a + b = ⟨a.x + b.x, a.y + b.y, a.z + b.z⟩ := rfl

theorem Vec3.sub_def (a b : Vec3) : a - b = ⟨a.x - b.x, a.y - b.y, a.z - b.z⟩ := rfl

theorem Vec3.neg_def (a : Vec3) : -a = ⟨-a.x, -a.y, -a.z⟩ := rfl

theorem Vec3.mul_def (a b : Vec3) : a * b = ⟨a.x * b.x, a.y * b.y, a.z * b.z⟩ := rfl

theorem Vec3.smul_def (a : Vec3) (q : ℚ) : a * q = ⟨a.x * q, a.y * q, a.z * q⟩ := rfl

theorem Vec3.smul_left_def (q : ℚ) (a : Vec3) : q * a = ⟨q * a.x, q * a.y, q * a.z⟩ := rfl

theorem Vec3.div_def (a : Vec3) (q : ℚ) : a / q = ⟨a.x / q, a.y / q, a.z / q⟩ := rfl

theorem Vec3.add_assoc (a b c : Vec3) : a + b + c = a + (b + c) := by
  simp only [Vec3.add_def, Vec3.mk.injEq]
  exact ⟨by ring, by ring, by ring⟩

theorem Vec3.add_zero3f (a : Vec3) : a + zero3f = a := by
  cases a; simp [Vec3.add_def, zero3f]

theorem Vec3.zero3f_add (a : Vec3) : zero3f + a = a := by
  cases a; simp [Vec3.add_def, zero3f]

theorem lengthSqr_nonneg (a : Vec3) : 0 ≤ lengthSqr a := by
  unfold lengthSqr dot
  nlinarith [sq_nonneg a.x, sq_nonneg a.y, sq_nonneg a.z]

theorem lengthSqr_neg (a : Vec3) : lengthSqr (-a) = lengthSqr a := by
  simp only [lengthSqr, dot, Vec3.neg_def]
  ring

/-- C1 (amended): in the integrator's direct-lighting step the number of
shadow-sample repetitions (and the divisor of each added contribution) is the
configured count only for area lights and 1 for point, directional and
environment lights, while the light model's `light_shadow_nsamples` returns
the configured count for both area and environment lights and 1 otherwise
(the integrator inlines the area test and bypasses the helper). -/
theorem claim1_shadow_repetition_counts :
    ∀ (f : Frame3) (i : Vec3) (s : Option Shape) (em hs imp : Bool) (n : ℕ),
      integratorShadowSamples (.point f i) = 1 ∧
      light_shadow_nsamples (.point f i) = 1 ∧
      integratorShadowSamples (.directional f i) = 1 ∧
      light_shadow_nsamples (.directional f i) = 1 ∧
      integratorShadowSamples (.area f i s n) = n ∧
      light_shadow_nsamples (.area f i s n) = n ∧
      integratorShadowSamples (.env f i em hs n imp) = 1 ∧
      light_shadow_nsamples (.env f i em hs n imp) = n := by
  intro f i s em hs imp n
  exact ⟨rfl, rfl, rfl, rfl, rfl, rfl, rfl, rfl⟩

/-- C1 counterexample: for an environment light configured with 16 shadow
samples, the integrator's repetition count is 1, not the configured count
the claim (and `light_shadow_nsamples`) gives. -/
theorem claim1_counterexample :
    integratorShadowSamples (.env identity_frame3f one3f false false 16 true) = 1 ∧
    light_shadow_nsamples (.env identity_frame3f one3f false false 16 true) = 16 ∧
    (1 : ℕ) ≠ 16 := ⟨rfl, rfl, by decide⟩

/-- C4 (amended): the deterministic shadow sample of a directional light has
direction equal to the negation of the light's forward axis (the local `-z`
transformed to world space, i.e. `-frame.z`), distance equal to the infinite
ray constant, radiance equal to the intensity unscaled and pdf 1,
independent of the shading point. -/
theorem claim4_directional_sample :
    ∀ (qsqrt : ℚ → ℚ) (f : Frame3) (intensity p : Vec3),
      light_shadow_sample qsqrt (Light.directional f intensity) p =
        ⟨intensity, -f.z, rayinf, 1⟩ := by
  intro qsqrt f intensity p
  have hdir : transform_direction f (-z3f) = -f.z := by
    simp only [transform_direction, z3f, Vec3.neg_def, Vec3.smul_def, Vec3.add_def,
      Vec3.mk.injEq]
    exact ⟨by ring, by ring, by ring⟩
  simp [light_shadow_sample, Light.frame, hdir]

/-- C4 counterexample: at the identity frame the sampled direction is
`(0,0,-1)`, while the frame's z axis transformed to world space is `(0,0,1)`;
the claim's "direction equal to the light's forward axis" fails. -/
theorem claim4_counterexample :
    (light_shadow_sample (fun q => q) (Light.directional identity_frame3f one3f)
        ⟨5, 7, 9⟩).dir = ⟨0, 0, -1⟩ ∧
    transform_direction identity_frame3f z3f = ⟨0, 0, 1⟩ ∧
    (⟨0, 0, -1⟩ : Vec3) ≠ ⟨0, 0, 1⟩ := by
  refine ⟨?_, ?_, ?_⟩
  · simp only [light_shadow_sample, Light.frame, identity_frame3f, z3f, transform_direction,
      Vec3.neg_def, Vec3.smul_def, Vec3.add_def, zero3f, Vec3.mk.injEq]
    norm_num
  · simp only [identity_frame3f, z3f, transform_direction, Vec3.smul_def, Vec3.add_def,
      zero3f, Vec3.mk.injEq]
    norm_num
  · simp only [ne_eq, Vec3.mk.injEq]
    norm_num

/-- C10: the stochastic shadow sample of an area light is defined exactly when
the light's shape is a non-null rectangular quad — the unchecked quad cast
makes the operation partial, a precondition the spec's "sample-able shape"
wording leaves unstated. -/
theorem claim10_area_sample_quad_domain :
    ∀ (qsqrt : ℚ → ℚ) (f : Frame3) (intensity : Vec3) (shape : Option Shape) (cnt : ℕ)
      (p : Vec3) (u v : ℚ),
      (rand_light_shadow_sample qsqrt (Light.area f intensity shape cnt) p u v).isSome =
        true ↔ ∃ w h, shape = some (Shape.quad w h) := by
  intro qsqrt f intensity shape cnt p u v
  rcases shape with _ | s
  · simp [rand_light_shadow_sample, castQuad]
  · rcases s with ⟨w, h⟩ | r
    · exact iff_of_true (by simp [rand_light_shadow_sample, castQuad]) ⟨w, h, rfl⟩
    · simp [rand_light_shadow_sample, castQuad]

/-- C2 (amended): for an area light with a quad shape the stochastic sample's
pdf equals exactly `1/(width*height)` for every draw, but the radiance is
the inverse-square radiance times the signed (unclamped) cosine: when the
cosine term is non-positive and the intensity is componentwise non-negative
the radiance components are only non-positive, and the radiance is zero
exactly along the cosine-zero boundary, not on the whole non-positive side. -/
theorem claim2_area_sample_pdf_and_cosine :
    ∀ (qsqrt : ℚ → ℚ) (f : Frame3) (intensity : Vec3) (w h : ℚ) (cnt : ℕ)
      (p : Vec3) (u v : ℚ) (ss : ShadowSample),
      (∀ q : ℚ, 0 < q → 0 < qsqrt q) →
      rand_light_shadow_sample qsqrt (Light.area f intensity (some (Shape.quad w h)) cnt)
          p u v = some ss →
      ss.pdf = 1 / (w * h) ∧
      ((transform_point_inverse (areaShiftFrame f w h u v) p).z ≤ 0 →
        (0 ≤ intensity.x → ss.radiance.x ≤ 0) ∧
        (0 ≤ intensity.y → ss.radiance.y ≤ 0) ∧
        (0 ≤ intensity.z → ss.radiance.z ≤ 0)) ∧
      ((transform_point_inverse (areaShiftFrame f w h u v) p).z = 0 →
        ss.radiance = zero3f) := by
  intro qsqrt f intensity w h cnt p u v ss hq hss
  simp only [rand_light_shadow_sample, castQuad, Option.some.injEq] at hss
  subst hss
  set pl := transform_point_inverse (areaShiftFrame f w h u v) p with hpl
  have hcos : dot z3f (-(normalize qsqrt (-pl))) =
      pl.z / qsqrt (lengthSqr (-pl)) := by
    simp only [dot, z3f, normalize, length, Vec3.div_def, Vec3.neg_def]
    ring
  have key : ∀ a : ℚ, 0 ≤ a → pl.z ≤ 0 →
      a / lengthSqr pl * (pl.z / qsqrt (lengthSqr (-pl))) ≤ 0 := by
    intro a ha hz
    rcases (lengthSqr_nonneg pl).lt_or_eq with hS | hS
    · have hL : 0 < qsqrt (lengthSqr (-pl)) := hq _ (by rwa [lengthSqr_neg])
      have hb : pl.z / qsqrt (lengthSqr (-pl)) ≤ 0 := by
        rw [div_eq_mul_inv]
        exact mul_nonpos_iff.mpr (Or.inr ⟨hz, inv_nonneg.mpr hL.le⟩)
      exact mul_nonpos_iff.mpr (Or.inl ⟨div_nonneg ha hS.le, hb⟩)
    · rw [← hS, div_zero, zero_mul]
  refine ⟨rfl, ?_, ?_⟩
  · intro hz
    refine ⟨fun hx => ?_, fun hy => ?_, fun hzc => ?_⟩ <;>
      simp only [ShadowSample.radiance, hcos, Vec3.div_def, Vec3.smul_def] <;>
      [exact key _ hx hz; exact key _ hy hz; exact key _ hzc hz]
  · intro hz0
    have hc0 : dot z3f (-(normalize qsqrt (-pl))) = 0 := by
      rw [hcos, hz0, zero_div]
    simp only [ShadowSample.radiance, hc0, Vec3.smul_def, mul_zero, zero3f]

/-- C2 counterexample: at the identity frame with intensity `(1,1,1)`, a 2x2
quad and shading point `(0,0,-1)` behind the light, the cosine term is `-1`
(non-positive) yet the drawn radiance is `(-1,-1,-1)` — negative, not zero,
refuting "radiance is non-negative and zero when the cosine is
non-positive". -/
theorem claim2_counterexample :
    dot z3f (-(normalize (fun q => q)
      (-(transform_point_inverse (areaShiftFrame identity_frame3f 2 2 (1/2) (1/2))
          ⟨0, 0, -1⟩)))) = -1 ∧
    (rand_light_shadow_sample (fun q => q)
        (Light.area identity_frame3f one3f (some (Shape.quad 2 2)) 16)
        ⟨0, 0, -1⟩ (1/2) (1/2)).map ShadowSample.radiance = some ⟨-1, -1, -1⟩ ∧
    ¬ (0 : ℚ) ≤ -1 := by
  refine ⟨?_, ?_, by norm_num⟩
  · simp only [areaShiftFrame, identity_frame3f, transform_vector, transform_direction,
      transform_point_inverse, normalize, length, lengthSqr, dot, z3f, zero3f, one3f,
      Vec3.add_def, Vec3.sub_def, Vec3.neg_def, Vec3.smul_def, Vec3.div_def]
    norm_num
  · simp only [rand_light_shadow_sample, castQuad, areaShiftFrame, identity_frame3f,
      transform_vector, transform_direction, transform_point_inverse, normalize, length,
      lengthSqr, dot, z3f, zero3f, one3f, Vec3.add_def, Vec3.sub_def, Vec3.neg_def,
      Vec3.smul_def, Vec3.div_def, Option.map, ShadowSample.radiance, Vec3.mk.injEq]
    norm_num

/-- C2 witness: the amended theorem applied at a concrete area light, quad and
shading point, with both hypotheses discharged concretely. -/
theorem claim2_witness :
    (∀ q : ℚ, 0 < q → 0 < (fun q => q) q) ∧
    (rand_light_shadow_sample (fun q => q)
        (Light.area identity_frame3f one3f (some (Shape.quad 2 2)) 16)
        ⟨0, 0, -1⟩ (1/2) (1/2) =
      some ⟨⟨-1, -1, -1⟩, ⟨0, 0, 1⟩, 1, 1/4⟩) ∧
    ((⟨⟨-1, -1, -1⟩, ⟨0, 0, 1⟩, 1, 1/4⟩ : ShadowSample).pdf = 1 / (2 * 2) ∧
      ((transform_point_inverse (areaShiftFrame identity_frame3f 2 2 (1/2) (1/2))
          ⟨0, 0, -1⟩).z ≤ 0 →
        (0 ≤ one3f.x →
          (⟨⟨-1, -1, -1⟩, ⟨0, 0, 1⟩, 1, 1/4⟩ : ShadowSample).radiance.x ≤ 0) ∧
        (0 ≤ one3f.y →
          (⟨⟨-1, -1, -1⟩, ⟨0, 0, 1⟩, 1, 1/4⟩ : ShadowSample).radiance.y ≤ 0) ∧
        (0 ≤ one3f.z →
          (⟨⟨-1, -1, -1⟩, ⟨0, 0, 1⟩, 1, 1/4⟩ : ShadowSample).radiance.z ≤ 0)) ∧
      ((transform_point_inverse (areaShiftFrame identity_frame3f 2 2 (1/2) (1/2))
          ⟨0, 0, -1⟩).z = 0 →
        (⟨⟨-1, -1, -1⟩, ⟨0, 0, 1⟩, 1, 1/4⟩ : ShadowSample).radiance = zero3f)) := by
  have h1 : ∀ q : ℚ, 0 < q → 0 < (fun q => q) q := fun q hq => hq
  have h2 : rand_light_shadow_sample (fun q => q)
      (Light.area identity_frame3f one3f (some (Shape.quad 2 2)) 16)
      ⟨0, 0, -1⟩ (1/2) (1/2) =
      some ⟨⟨-1, -1, -1⟩, ⟨0, 0, 1⟩, 1, 1/4⟩ := by
    simp only [rand_light_shadow_sample, castQuad, areaShiftFrame, identity_frame3f,
      transform_vector, transform_direction, transform_point_inverse, normalize, length,
      lengthSqr, dot, z3f, zero3f, one3f, Vec3.add_def, Vec3.sub_def, Vec3.neg_def,
      Vec3.smul_def, Vec3.div_def, Option.some.injEq, ShadowSample.mk.injEq, Vec3.mk.injEq]
    norm_num
  exact ⟨h1, h2,
    claim2_area_sample_pdf_and_cosine (fun q => q) identity_frame3f one3f 2 2 16
      ⟨0, 0, -1⟩ (1/2) (1/2) ⟨⟨-1, -1, -1⟩, ⟨0, 0, 1⟩, 1, 1/4⟩ h1 h2⟩

/-- C6: for every material variant without bound textures, `material_brdfcos`
returns the zero vector whenever either direction has non-positive dot
product with the shading normal. -/
theorem claim6_brdfcos_below_hemisphere :
    ∀ (qpow : ℚ → ℚ → ℚ) (qsqrt : ℚ → ℚ) (m : Material) (frame : Frame3) (wi wo : Vec3),
      material_has_textures m = false →
      (dot wi frame.z ≤ 0 ∨ dot wo frame.z ≤ 0) →
      material_brdfcos qpow qsqrt m frame wi wo = some zero3f := by
  intro qpow qsqrt m frame wi wo hmt hdot
  rcases m with ⟨nt, body⟩
  rcases body with ⟨d, dt⟩ | ⟨d, s, e, r, bl, dt, st, et, rt, ur⟩ | ⟨e, d, et, dt⟩ <;>
    simp only [material_brdfcos, hmt, Bool.false_eq_true, if_false, if_pos hdot,
      Option.some.injEq]

/-- C6 witness: the theorem applied to a texture-free Lambert material with the
incoming direction below the identity shading frame. -/
theorem claim6_witness :
    material_has_textures ⟨false, .lambert ⟨3/4, 3/4, 3/4⟩ false⟩ = false ∧
    (dot ⟨0, 0, -1⟩ identity_frame3f.z ≤ 0 ∨ dot ⟨0, 0, 1⟩ identity_frame3f.z ≤ 0) ∧
    material_brdfcos (fun a _ => a) (fun q => q) ⟨false, .lambert ⟨3/4, 3/4, 3/4⟩ false⟩
      identity_frame3f ⟨0, 0, -1⟩ ⟨0, 0, 1⟩ = some zero3f := by
  have h1 : material_has_textures ⟨false, .lambert ⟨3/4, 3/4, 3/4⟩ false⟩ = false := rfl
  have h2 : dot ⟨0, 0, -1⟩ identity_frame3f.z ≤ 0 ∨
      dot ⟨0, 0, 1⟩ identity_frame3f.z ≤ 0 := by
    left
    simp only [dot, identity_frame3f]
    norm_num
  exact ⟨h1, h2, claim6_brdfcos_below_hemisphere (fun a _ => a) (fun q => q)
    ⟨false, .lambert ⟨3/4, 3/4, 3/4⟩ false⟩ identity_frame3f ⟨0, 0, -1⟩ ⟨0, 0, 1⟩ h1 h2⟩

/-- C7: every texture-guarded evaluation and sampling operation hard-fails
(returns `none`, the model of the `ERROR_IF_NOT` abort) on a material that
still has a bound texture in a variant-relevant slot. -/
theorem claim7_textured_ops_fail :
    ∀ (qpow : ℚ → ℚ → ℚ) (qsqrt : ℚ → ℚ) (hemisample : ℚ × ℚ → DirSample)
      (m : Material) (frame : Frame3) (wi wo : Vec3) (suv : ℚ × ℚ) (sl : ℚ),
      material_has_textures m = true →
      material_diffuse_albedo m = none ∧
      material_emission m frame wo = none ∧
      material_brdfcos qpow qsqrt m frame wi wo = none ∧
      material_sample_reflection m frame wo = none ∧
      material_sample_blurryreflection qsqrt m frame wo suv = none ∧
      material_sample_brdfcos qpow qsqrt hemisample m frame wo suv sl = none := by
  intro qpow qsqrt hemisample m frame wi wo suv sl hmt
  refine ⟨?_, ?_, ?_, ?_, ?_, ?_⟩ <;>
    simp only [material_diffuse_albedo, material_emission, material_brdfcos,
      material_sample_reflection, material_sample_blurryreflection,
      material_sample_brdfcos, hmt, if_true]

/-- C7 witness: the theorem applied to a Lambert material whose diffuse texture
slot is still bound. -/
theorem claim7_witness :
    material_has_textures ⟨false, .lambert one3f true⟩ = true ∧
    material_diffuse_albedo ⟨false, .lambert one3f true⟩ = none ∧
    material_emission ⟨false, .lambert one3f true⟩ identity_frame3f z3f = none ∧
    material_brdfcos (fun a _ => a) (fun q => q) ⟨false, .lambert one3f true⟩
      identity_frame3f z3f z3f = none ∧
    material_sample_reflection ⟨false, .lambert one3f true⟩ identity_frame3f z3f = none ∧
    material_sample_blurryreflection (fun q => q) ⟨false, .lambert one3f true⟩
      identity_frame3f z3f (0, 0) = none ∧
    material_sample_brdfcos (fun a _ => a) (fun q => q) (fun _ => ⟨z3f, 1⟩)
      ⟨false, .lambert one3f true⟩ identity_frame3f z3f (0, 0) 0 = none := by
  have h1 : material_has_textures ⟨false, .lambert one3f true⟩ = true := rfl
  have h2 := claim7_textured_ops_fail (fun a _ => a) (fun q => q) (fun _ => ⟨z3f, 1⟩)
    ⟨false, .lambert one3f true⟩ identity_frame3f z3f z3f (0, 0) 0 h1
  exact ⟨h1, h2.1, h2.2.1, h2.2.2.1, h2.2.2.2.1, h2.2.2.2.2.1, h2.2.2.2.2.2⟩

/-- C9: for every material, the instance produced by `material_shading_textures`
has no bound texture slots, so every texture-guarded evaluation the
integrator performs on the resolved instance (diffuse albedo, emission,
brdf-cos, mirror-reflection sampling) succeeds — the usage-contract error is
unreachable along the integrator's path. -/
theorem claim9_resolved_guards_pass :
    ∀ (qpow : ℚ → ℚ → ℚ) (qsqrt : ℚ → ℚ) (m : Material) (tc : ℚ × ℚ)
      (frame : Frame3) (wi wo : Vec3),
      material_has_textures (material_shading_textures m tc) = false ∧
      (material_diffuse_albedo (material_shading_textures m tc)).isSome = true ∧
      (material_emission (material_shading_textures m tc) frame wo).isSome = true ∧
      (material_brdfcos qpow qsqrt (material_shading_textures m tc) frame wi wo).isSome =
        true ∧
      (material_sample_reflection (material_shading_textures m tc) frame wo).isSome =
        true := by
  intro qpow qsqrt m tc frame wi wo
  rcases m with ⟨nt, body⟩
  rcases body with ⟨d, dt⟩ | ⟨d, s, e, r, bl, dt, st, et, rt, ur⟩ | ⟨e, d, et, dt⟩ <;>
    simp [material_shading_textures, material_has_textures, material_diffuse_albedo,
      material_emission, material_brdfcos, material_sample_reflection]

@[ext] theorem Vec3.ext (a b : Vec3) (hx : a.x = b.x) (hy : a.y = b.y)
    (hz : a.z = b.z) : a = b := by
  cases a; cases b; simp_all

theorem vec_smul_div_cancel (c : ℚ) (v : Vec3) (hc : c ≠ 0) : c * (v / c) = v := by
  apply Vec3.ext <;> simp only [Vec3.div_def, Vec3.smul_left_def] <;>
    rw [mul_comm, div_mul_cancel₀ _ hc]

theorem shadowRepeatLoop_const (qpow : ℚ → ℚ → ℚ) (qsqrt : ℚ → ℚ)
    (intersect_any : Ray → Bool) (shadows : Bool) (brdf : Material) (frame : Frame3)
    (wo : Vec3) (ss : ShadowSample) (count : ℕ) (v₀ : Vec3)
    (h : shadowContribOnce qpow qsqrt intersect_any shadows brdf frame wo ss = some v₀) :
    ∀ k : ℕ,
      shadowRepeatLoop qpow qsqrt intersect_any shadows brdf frame wo ss count k =
        some ((k : ℚ) * (v₀ / (count : ℚ))) := by
  intro k
  induction k with
  | zero =>
      simp only [shadowRepeatLoop, Vec3.smul_left_def, Vec3.div_def, zero3f,
        Nat.cast_zero, zero_mul, Option.some.injEq]
  | succ k ih =>
      rw [shadowRepeatLoop, h, ih]
      dsimp only
      congr 1
      apply Vec3.ext <;>
        simp only [Vec3.smul_left_def, Vec3.div_def, Vec3.add_def] <;>
        push_cast <;> ring

/-- C5: within one integrator estimate, each light's direct-lighting step draws
exactly one stochastic shadow sample from exactly two fresh random numbers
(the random index advances from `n` to `n+2` regardless of the repetition
count), and that one sample is reused unchanged by every repetition: the
total added contribution equals the undivided single-sample contribution,
the per-repetition division by the count cancelling exactly. -/
theorem claim5_one_draw_reused :
    ∀ (qpow : ℚ → ℚ → ℚ) (qsqrt : ℚ → ℚ) (intersect_any : Ray → Bool) (shadows : Bool)
      (rng : ℕ → ℚ) (brdf : Material) (frame : Frame3) (wo : Vec3) (l : Light)
      (n : ℕ) (v : Vec3) (n' : ℕ) (ss : ShadowSample),
      rand_light_shadow_sample qsqrt l frame.o (rng n) (rng (n + 1)) = some ss →
      directLightContrib qpow qsqrt intersect_any shadows rng brdf frame wo l n =
        some (v, n') →
      n' = n + 2 ∧
      (1 ≤ integratorShadowSamples l →
        shadowContribOnce qpow qsqrt intersect_any shadows brdf frame wo ss = some v) := by
  intro qpow qsqrt intersect_any shadows rng brdf frame wo l n v n' ss hss hd
  rw [directLightContrib, hss] at hd
  dsimp only at hd
  rcases hloop : shadowRepeatLoop qpow qsqrt intersect_any shadows brdf frame wo ss
      (integratorShadowSamples l) (integratorShadowSamples l) with _ | vv
  · rw [hloop] at hd
    exact absurd hd (by simp)
  · rw [hloop] at hd
    simp only [Option.some.injEq, Prod.mk.injEq] at hd
    refine ⟨hd.2.symm, ?_⟩
    intro hcnt
    rcases hc : integratorShadowSamples l with _ | c
    · omega
    · rcases honce : shadowContribOnce qpow qsqrt intersect_any shadows brdf frame wo ss
          with _ | v₀
      · rw [hc, shadowRepeatLoop, honce] at hloop
        simp at hloop
      · have hconst := shadowRepeatLoop_const qpow qsqrt intersect_any shadows brdf frame
          wo ss (c + 1) v₀ honce (c + 1)
        rw [hc, hconst] at hloop
        injection hloop with hv
        have hval : v₀ = v := by
          rw [← hd.1, ← hv, vec_smul_div_cancel _ v₀ (by positivity)]
        rw [hval]

/-- C5 witness: the theorem applied to a point light at the origin of the
identity shading frame, with both hypotheses discharged by evaluation. -/
theorem claim5_witness :
    (rand_light_shadow_sample (fun q => q) (Light.point identity_frame3f one3f)
        identity_frame3f.o ((fun _ : ℕ => (0 : ℚ)) 0) ((fun _ : ℕ => (0 : ℚ)) (0 + 1)) =
      some ⟨zero3f, zero3f, 0, 1⟩) ∧
    (directLightContrib (fun a _ => a) (fun q => q) (fun _ => false) false
        (fun _ => 0) ⟨false, .lambert one3f false⟩ identity_frame3f z3f
        (Light.point identity_frame3f one3f) 0 = some (zero3f, 2)) ∧
    ((2 : ℕ) = 0 + 2 ∧
      (1 ≤ integratorShadowSamples (Light.point identity_frame3f one3f) →
        shadowContribOnce (fun a _ => a) (fun q => q) (fun _ => false) false
          ⟨false, .lambert one3f false⟩ identity_frame3f z3f ⟨zero3f, zero3f, 0, 1⟩ =
          some zero3f)) := by
  have h1 : rand_light_shadow_sample (fun q => q) (Light.point identity_frame3f one3f)
      identity_frame3f.o ((fun _ : ℕ => (0 : ℚ)) 0) ((fun _ : ℕ => (0 : ℚ)) (0 + 1)) =
      some ⟨zero3f, zero3f, 0, 1⟩ := by
    simp only [rand_light_shadow_sample, light_shadow_sample, Light.frame,
      transform_point_inverse, transform_direction, normalize, length, lengthSqr, dot,
      identity_frame3f, zero3f, one3f, Vec3.add_def, Vec3.sub_def, Vec3.neg_def,
      Vec3.smul_def, Vec3.div_def, Option.some.injEq, ShadowSample.mk.injEq, Vec3.mk.injEq]
    norm_num
  have h2 : directLightContrib (fun a _ => a) (fun q => q) (fun _ => false) false
      (fun _ => 0) ⟨false, .lambert one3f false⟩ identity_frame3f z3f
      (Light.point identity_frame3f one3f) 0 = some (zero3f, 2) := by
    rw [directLightContrib]
    dsimp only
    rw [h1]
    dsimp only [integratorShadowSamples]
    rw [shadowRepeatLoop]
    rw [shadowContribOnce]
    simp only [shadowRepeatLoop, Vec3.div_def, Vec3.add_def, zero3f, Option.some.injEq,
      Prod.mk.injEq, Vec3.mk.injEq]
    norm_num
  exact ⟨h1, h2, claim5_one_draw_reused (fun a _ => a) (fun q => q) (fun _ => false) false
    (fun _ => 0) ⟨false, .lambert one3f false⟩ identity_frame3f z3f
    (Light.point identity_frame3f one3f) 0 zero3f 2 ⟨zero3f, zero3f, 0, 1⟩ h1 h2⟩

theorem dist_fuel_maxdepth_zero (qpow : ℚ → ℚ → ℚ) (qsqrt : ℚ → ℚ) (scene : Scene)
    (opts : DistributionRaytraceOptions) (h : opts.max_depth = 0) (fuel : ℕ) (ray : Ray)
    (depth n : ℕ) :
    _dist_raytrace_scene_ray_fuel qpow qsqrt scene opts fuel ray depth n =
    _dist_raytrace_scene_ray_fuel qpow qsqrt scene (withoutReflections opts) fuel ray
      depth n := by
  conv_lhs => rw [_dist_raytrace_scene_ray_fuel]
  conv_rhs => rw [_dist_raytrace_scene_ray_fuel]
  simp [withoutReflections, h]

theorem dist_fuel_depth_bound_zero (qpow : ℚ → ℚ → ℚ) (qsqrt : ℚ → ℚ) (scene : Scene)
    (opts : DistributionRaytraceOptions) (ray : Ray) (depth n : ℕ) (c : Vec3)
    (n' dm : ℕ)
    (hres : _dist_raytrace_scene_ray_fuel qpow qsqrt scene opts 0 ray depth n =
      some (c, n', dm)) : dm ≤ max depth opts.max_depth := by
  rw [_dist_raytrace_scene_ray_fuel] at hres
  rcases h1 : scene.intersect_first ray with _ | isec
  · rw [h1] at hres
    dsimp only at hres
    simp only [Option.some.injEq, Prod.mk.injEq] at hres
    omega
  · rw [h1] at hres
    dsimp only at hres
    set brdf := material_shading_textures isec.material isec.texcoord with hbrdf
    set frame := material_shading_frame isec.material
      (if opts.doublesided = true then faceforward isec.frame ray.d else isec.frame)
      isec.texcoord with hframe
    rcases h2 : material_diffuse_albedo brdf with _ | albedo
    · rw [h2] at hres
      exact Option.noConfusion hres
    · rw [h2] at hres
      dsimp only at hres
      rcases h3 : material_emission brdf frame (-ray.d) with _ | emi
      · rw [h3] at hres
        exact Option.noConfusion hres
      · rw [h3] at hres
        dsimp only at hres
        rcases h4 : directLoop qpow qsqrt scene.intersect_any opts.shadows opts.rng brdf
            frame (-ray.d)
            (if opts.cameralights = true then scene.cameralights else scene.lights)
            (if opts.samples_ambient ≠ 0 then
              (opts.ambient *
                  (((ambientVisible qsqrt scene.intersect_any opts.rng isec.frame
                      opts.samples_ambient n).1 : ℚ) /
                    (opts.samples_ambient : ℚ)) * albedo,
                (ambientVisible qsqrt scene.intersect_any opts.rng isec.frame
                    opts.samples_ambient n).2)
            else (opts.ambient * albedo, n)).2 with _ | p
        · rw [h4] at hres
          exact Option.noConfusion hres
        · rcases p with ⟨cdir, n₂⟩
          rw [h4] at hres
          dsimp only at hres
          by_cases hg : (opts.reflections = true ∧ depth < opts.max_depth)
          · rw [if_pos hg] at hres
            rcases h5 : material_sample_reflection brdf frame (-ray.d) with _ | bs
            · rw [h5] at hres
              exact Option.noConfusion hres
            · rw [h5] at hres
              dsimp only at hres
              by_cases hz : bs.brdfcos = zero3f
              · rw [if_pos hz] at hres
                simp only [Option.some.injEq, Prod.mk.injEq] at hres
                omega
              · rw [if_neg hz] at hres
                exact Option.noConfusion hres
          · rw [if_neg hg] at hres
            simp only [Option.some.injEq, Prod.mk.injEq] at hres
            omega

theorem dist_fuel_depth_bound (qpow : ℚ → ℚ → ℚ) (qsqrt : ℚ → ℚ) (scene : Scene)
    (opts : DistributionRaytraceOptions) :
    ∀ (fuel : ℕ) (ray : Ray) (depth n : ℕ) (c : Vec3) (n' dm : ℕ),
      _dist_raytrace_scene_ray_fuel qpow qsqrt scene opts fuel ray depth n =
        some (c, n', dm) → dm ≤ max depth opts.max_depth := by
  intro fuel
  induction fuel with
  | zero =>
      intro ray depth n c n' dm hres
      exact dist_fuel_depth_bound_zero qpow qsqrt scene opts ray depth n c n' dm hres
  | succ f ih =>
      intro ray depth n c n' dm hres
      rw [_dist_raytrace_scene_ray_fuel] at hres
      rcases h1 : scene.intersect_first ray with _ | isec
      · rw [h1] at hres
        dsimp only at hres
        simp only [Option.some.injEq, Prod.mk.injEq] at hres
        omega
      · rw [h1] at hres
        dsimp only at hres
        set brdf := material_shading_textures isec.material isec.texcoord with hbrdf
        set frame := material_shading_frame isec.material
          (if opts.doublesided = true then faceforward isec.frame ray.d else isec.frame)
          isec.texcoord with hframe
        rcases h2 : material_diffuse_albedo brdf with _ | albedo
        · rw [h2] at hres
          exact Option.noConfusion hres
        · rw [h2] at hres
          dsimp only at hres
          rcases h3 : material_emission brdf frame (-ray.d) with _ | emi
          · rw [h3] at hres
            exact Option.noConfusion hres
          · rw [h3] at hres
            dsimp only at hres
            rcases h4 : directLoop qpow qsqrt scene.intersect_any opts.shadows opts.rng
                brdf frame (-ray.d)
                (if opts.cameralights = true then scene.cameralights else scene.lights)
                (if opts.samples_ambient ≠ 0 then
                  (opts.ambient *
                      (((ambientVisible qsqrt scene.intersect_any opts.rng isec.frame
                          opts.samples_ambient n).1 : ℚ) /
                        (opts.samples_ambient : ℚ)) * albedo,
                    (ambientVisible qsqrt scene.intersect_any opts.rng isec.frame
                        opts.samples_ambient n).2)
                else (opts.ambient * albedo, n)).2 with _ | p
            · rw [h4] at hres
              exact Option.noConfusion hres
            · rcases p with ⟨cdir, n₂⟩
              rw [h4] at hres
              dsimp only at hres
              by_cases hg : (opts.reflections = true ∧ depth < opts.max_depth)
              · rw [if_pos hg] at hres
                rcases h5 : material_sample_reflection brdf frame (-ray.d) with _ | bs
                · rw [h5] at hres
                  exact Option.noConfusion hres
                · rw [h5] at hres
                  dsimp only at hres
                  by_cases hz : bs.brdfcos = zero3f
                  · rw [if_pos hz] at hres
                    simp only [Option.some.injEq, Prod.mk.injEq] at hres
                    omega
                  · rw [if_neg hz] at hres
                    rcases h6 : _dist_raytrace_scene_ray_fuel qpow qsqrt scene opts f
                        ⟨frame.o, bs.wi⟩ (depth + 1) n₂ with _ | t
                    · rw [h6] at hres
                      exact Option.noConfusion hres
                    · rcases t with ⟨crec, n₃, dmrec⟩
                      rw [h6] at hres
                      dsimp only at hres
                      simp only [Option.some.injEq, Prod.mk.injEq] at hres
                      have hb := ih ⟨frame.o, bs.wi⟩ (depth + 1) n₂ crec n₃ dmrec h6
                      omega
              · rw [if_neg hg] at hres
                simp only [Option.some.injEq, Prod.mk.injEq] at hres
                omega

/-- C3: the estimator terminates — the embedding is total, its recursion budget
`max_depth - depth` strictly decreasing under the `depth < max_depth` guard.
With `max_depth = 0` the estimate equals the estimate with specular
reflections disabled, so no recursion term is ever added regardless of
material reflectivity; and every successful estimate from a call at depth
`d` reports a deepest reached recursion depth of at most `max d max_depth`,
so from the driver's depth-0 entry the depth never exceeds `max_depth`. -/
theorem claim3_recursion_bounded :
    (∀ (qpow : ℚ → ℚ → ℚ) (qsqrt : ℚ → ℚ) (scene : Scene)
      (opts : DistributionRaytraceOptions) (ray : Ray) (depth n : ℕ),
      opts.max_depth = 0 →
      _dist_raytrace_scene_ray qpow qsqrt scene opts ray depth n =
        _dist_raytrace_scene_ray qpow qsqrt scene (withoutReflections opts) ray depth n) ∧
    (∀ (qpow : ℚ → ℚ → ℚ) (qsqrt : ℚ → ℚ) (scene : Scene)
      (opts : DistributionRaytraceOptions) (ray : Ray) (depth n : ℕ) (c : Vec3)
      (n' dm : ℕ),
      _dist_raytrace_scene_ray qpow qsqrt scene opts ray depth n = some (c, n', dm) →
      dm ≤ max depth opts.max_depth) := by
  constructor
  · intro qpow qsqrt scene opts ray depth n h
    unfold _dist_raytrace_scene_ray
    exact dist_fuel_maxdepth_zero qpow qsqrt scene opts h _ ray depth n
  · intro qpow qsqrt scene opts ray depth n c n' dm hres
    exact dist_fuel_depth_bound qpow qsqrt scene opts _ ray depth n c n' dm hres

/-- C3 witness: both parts applied at the miss-everything scene with the
concrete `max_depth = 0` options, the hypotheses discharged by evaluation. -/
theorem claim3_witness :
    (probeOpts.max_depth = 0 ∧
      _dist_raytrace_scene_ray (fun a _ => a) (fun q => q) missScene probeOpts
          ⟨zero3f, z3f⟩ 0 0 =
        _dist_raytrace_scene_ray (fun a _ => a) (fun q => q) missScene
          (withoutReflections probeOpts) ⟨zero3f, z3f⟩ 0 0) ∧
    (_dist_raytrace_scene_ray (fun a _ => a) (fun q => q) missScene probeOpts
        ⟨zero3f, z3f⟩ 0 0 = some (⟨1, 2, 3⟩, 0, 0) ∧
      (0 : ℕ) ≤ max 0 probeOpts.max_depth) := by
  have h0 : probeOpts.max_depth = 0 := rfl
  have hrun : _dist_raytrace_scene_ray (fun a _ => a) (fun q => q) missScene probeOpts
      ⟨zero3f, z3f⟩ 0 0 = some (⟨1, 2, 3⟩, 0, 0) := by
    rw [_dist_raytrace_scene_ray, _dist_raytrace_scene_ray_fuel]
    rfl
  exact ⟨⟨h0, claim3_recursion_bounded.1 (fun a _ => a) (fun q => q) missScene probeOpts
      ⟨zero3f, z3f⟩ 0 0 h0⟩,
    hrun, claim3_recursion_bounded.2 (fun a _ => a) (fun q => q) missScene probeOpts
      ⟨zero3f, z3f⟩ 0 0 ⟨1, 2, 3⟩ 0 0 hrun⟩

theorem addBuf_zeroOf (b : ImageBuffer) : addBuf b (zeroOf b) = b := by
  cases b with
  | mk w h acc smp =>
      simp only [addBuf, zeroOf, ImageBuffer.mk.injEq, true_and]
      constructor <;> funext i j
      · exact Vec3.add_zero3f _
      · rfl

theorem bumpPixel_addBuf (B D : ImageBuffer) (i j : ℕ) (c : Vec3) :
    bumpPixel (addBuf B D) i j c = addBuf B (bumpPixel D i j c) := by
  simp only [bumpPixel, addBuf, ImageBuffer.mk.injEq, true_and]
  constructor <;> funext i' j' <;> by_cases hij : (i' = i ∧ j' = j) <;>
    simp [hij, Vec3.add_assoc, Nat.add_assoc]

theorem sampleOnce_addBuf (qpow : ℚ → ℚ → ℚ) (qsqrt : ℚ → ℚ) (scene : Scene)
    (opts : DistributionRaytraceOptions) (w h i j : ℕ) (B D : ImageBuffer) (n : ℕ) :
    sampleOnce qpow qsqrt scene opts w h i j (addBuf B D) n =
      (sampleOnce qpow qsqrt scene opts w h i j D n).map
        (fun r => (addBuf B r.1, r.2)) := by
  unfold sampleOnce
  dsimp only
  rw [Option.map_map]
  apply Option.map_congr
  intro r _
  simp [Function.comp, bumpPixel_addBuf]

theorem sampleLoop_addBuf (qpow : ℚ → ℚ → ℚ) (qsqrt : ℚ → ℚ) (scene : Scene)
    (opts : DistributionRaytraceOptions) (w h i j : ℕ) (B : ImageBuffer) :
    ∀ (k : ℕ) (D : ImageBuffer) (n : ℕ),
      sampleLoop qpow qsqrt scene opts w h i j k (addBuf B D) n =
        (sampleLoop qpow qsqrt scene opts w h i j k D n).map
          (fun r => (addBuf B r.1, r.2)) := by
  intro k
  induction k with
  | zero => intro D n; simp [sampleLoop]
  | succ k ih =>
      intro D n
      rw [sampleLoop, sampleLoop, sampleOnce_addBuf]
      rcases hE : sampleOnce qpow qsqrt scene opts w h i j D n with _ | ⟨b', n'⟩
      · simp
      · simp only [Option.map_some']
        exact ih b' n'

theorem rowLoop_addBuf (qpow : ℚ → ℚ → ℚ) (qsqrt : ℚ → ℚ) (scene : Scene)
    (opts : DistributionRaytraceOptions) (w h j : ℕ) (B : ImageBuffer) :
    ∀ (is : List ℕ) (D : ImageBuffer) (n : ℕ),
      rowLoop qpow qsqrt scene opts w h j is (addBuf B D) n =
        (rowLoop qpow qsqrt scene opts w h j is D n).map
          (fun r => (addBuf B r.1, r.2)) := by
  intro is
  induction is with
  | nil => intro D n; simp [rowLoop]
  | cons i is ih =>
      intro D n
      rw [rowLoop, rowLoop, sampleLoop_addBuf]
      rcases hE : sampleLoop qpow qsqrt scene opts w h i j opts.samples D n with _ | ⟨b', n'⟩
      · simp
      · simp only [Option.map_some']
        exact ih b' n'

theorem gridLoop_addBuf (qpow : ℚ → ℚ → ℚ) (qsqrt : ℚ → ℚ) (scene : Scene)
    (opts : DistributionRaytraceOptions) (w h : ℕ) (B : ImageBuffer) :
    ∀ (js : List ℕ) (D : ImageBuffer) (n : ℕ),
      gridLoop qpow qsqrt scene opts w h js (addBuf B D) n =
        (gridLoop qpow qsqrt scene opts w h js D n).map
          (fun r => (addBuf B r.1, r.2)) := by
  intro js
  induction js with
  | nil => intro D n; simp [gridLoop]
  | cons j js ih =>
      intro D n
      rw [gridLoop, gridLoop, rowLoop_addBuf]
      rcases hE : rowLoop qpow qsqrt scene opts w h j (List.range w) D n with _ | ⟨b', n'⟩
      · simp
      · simp only [Option.map_some']
        exact ih b' n'

theorem bumpPixel_samples (b : ImageBuffer) (i j : ℕ) (c : Vec3) (i' j' : ℕ) :
    (bumpPixel b i j c).samples i' j' =
      b.samples i' j' + (if i' = i ∧ j' = j then 1 else 0) := by
  by_cases hij : (i' = i ∧ j' = j) <;> simp [bumpPixel, hij]

theorem sampleOnce_some (qpow : ℚ → ℚ → ℚ) (qsqrt : ℚ → ℚ) (scene : Scene)
    (opts : DistributionRaytraceOptions) (w h i j : ℕ) (b : ImageBuffer) (n : ℕ)
    (b' : ImageBuffer) (n' : ℕ)
    (hres : sampleOnce qpow qsqrt scene opts w h i j b n = some (b', n')) :
    b'.width = b.width ∧ b'.height = b.height ∧
      ∀ i' j', b'.samples i' j' =
        b.samples i' j' + (if i' = i ∧ j' = h - 1 - j then 1 else 0) := by
  unfold sampleOnce at hres
  dsimp only at hres
  rw [Option.map_eq_some'] at hres
  obtain ⟨r, hE, hr⟩ := hres
  simp only [Prod.mk.injEq] at hr
  obtain ⟨hb, hn⟩ := hr
  subst hb
  exact ⟨rfl, rfl, fun i' j' => bumpPixel_samples b i (h - 1 - j) r.1 i' j'⟩

theorem sampleLoop_some (qpow : ℚ → ℚ → ℚ) (qsqrt : ℚ → ℚ) (scene : Scene)
    (opts : DistributionRaytraceOptions) (w h i j : ℕ) :
    ∀ (k : ℕ) (b : ImageBuffer) (n : ℕ) (b' : ImageBuffer) (n' : ℕ),
      sampleLoop qpow qsqrt scene opts w h i j k b n = some (b', n') →
      b'.width = b.width ∧ b'.height = b.height ∧
        ∀ i' j', b'.samples i' j' =
          b.samples i' j' + (if i' = i ∧ j' = h - 1 - j then k else 0) := by
  intro k
  induction k with
  | zero =>
      intro b n b' n' hres
      rw [sampleLoop] at hres
      simp only [Option.some.injEq, Prod.mk.injEq] at hres
      obtain ⟨hb, -⟩ := hres
      subst hb
      refine ⟨rfl, rfl, fun i' j' => ?_⟩
      by_cases hij : (i' = i ∧ j' = h - 1 - j) <;> simp [hij]
  | succ k ih =>
      intro b n b' n' hres
      rw [sampleLoop] at hres
      rcases hE : sampleOnce qpow qsqrt scene opts w h i j b n with _ | ⟨b1, n1⟩
      · rw [hE] at hres
        exact Option.noConfusion hres
      · rw [hE] at hres
        dsimp only at hres
        obtain ⟨hw1, hh1, hs1⟩ := sampleOnce_some qpow qsqrt scene opts w h i j b n b1 n1 hE
        obtain ⟨hw2, hh2, hs2⟩ := ih b1 n1 b' n' hres
        refine ⟨hw2.trans hw1, hh2.trans hh1, fun i' j' => ?_⟩
        rw [hs2 i' j', hs1 i' j']
        by_cases hij : (i' = i ∧ j' = h - 1 - j) <;> simp [hij] <;> omega

theorem rowLoop_some (qpow : ℚ → ℚ → ℚ) (qsqrt : ℚ → ℚ) (scene : Scene)
    (opts : DistributionRaytraceOptions) (w h j : ℕ) :
    ∀ (is : List ℕ) (b : ImageBuffer) (n : ℕ) (b' : ImageBuffer) (n' : ℕ),
      rowLoop qpow qsqrt scene opts w h j is b n = some (b', n') →
      b'.width = b.width ∧ b'.height = b.height ∧
        ∀ i' j', b'.samples i' j' =
          b.samples i' j' +
            opts.samples * (if j' = h - 1 - j then is.count i' else 0) := by
  intro is
  induction is with
  | nil =>
      intro b n b' n' hres
      rw [rowLoop] at hres
      simp only [Option.some.injEq, Prod.mk.injEq] at hres
      obtain ⟨hb, -⟩ := hres
      subst hb
      refine ⟨rfl, rfl, fun i' j' => ?_⟩
      by_cases hj' : j' = h - 1 - j <;> simp [hj']
  | cons i is ih =>
      intro b n b' n' hres
      rw [rowLoop] at hres
      rcases hE : sampleLoop qpow qsqrt scene opts w h i j opts.samples b n with _ | ⟨b1, n1⟩
      · rw [hE] at hres
        exact Option.noConfusion hres
      · rw [hE] at hres
        dsimp only at hres
        obtain ⟨hw1, hh1, hs1⟩ :=
          sampleLoop_some qpow qsqrt scene opts w h i j opts.samples b n b1 n1 hE
        obtain ⟨hw2, hh2, hs2⟩ := ih b1 n1 b' n' hres
        refine ⟨hw2.trans hw1, hh2.trans hh1, fun i' j' => ?_⟩
        rw [hs2 i' j', hs1 i' j']
        rw [List.count_cons]
        by_cases hj' : j' = h - 1 - j
        · by_cases hii : i' = i
          · simp only [hj', hii, and_self, if_true, if_pos rfl, beq_self_eq_true]
            ring
          · have hbe : (i == i') = false := by simp [beq_iff_eq]; omega
            simp [hj', hii, hbe]
        · simp only [hj', if_false, and_false, mul_zero, add_zero, Nat.add_zero]

theorem gridLoop_some (qpow : ℚ → ℚ → ℚ) (qsqrt : ℚ → ℚ) (scene : Scene)
    (opts : DistributionRaytraceOptions) (w h : ℕ) :
    ∀ (js : List ℕ) (b : ImageBuffer) (n : ℕ) (b' : ImageBuffer) (n' : ℕ),
      gridLoop qpow qsqrt scene opts w h js b n = some (b', n') →
      b'.width = b.width ∧ b'.height = b.height ∧
        ∀ i' j', b'.samples i' j' =
          b.samples i' j' +
            opts.samples * (List.range w).count i' *
              js.countP (fun jj => h - 1 - jj == j') := by
  intro js
  induction js with
  | nil =>
      intro b n b' n' hres
      rw [gridLoop] at hres
      simp only [Option.some.injEq, Prod.mk.injEq] at hres
      obtain ⟨hb, -⟩ := hres
      subst hb
      exact ⟨rfl, rfl, fun i' j' => by simp [List.countP_nil]⟩
  | cons j js ih =>
      intro b n b' n' hres
      rw [gridLoop] at hres
      rcases hE : rowLoop qpow qsqrt scene opts w h j (List.range w) b n with _ | ⟨b1, n1⟩
      · rw [hE] at hres
        exact Option.noConfusion hres
      · rw [hE] at hres
        dsimp only at hres
        obtain ⟨hw1, hh1, hs1⟩ :=
          rowLoop_some qpow qsqrt scene opts w h j (List.range w) b n b1 n1 hE
        obtain ⟨hw2, hh2, hs2⟩ := ih b1 n1 b' n' hres
        refine ⟨hw2.trans hw1, hh2.trans hh1, fun i' j' => ?_⟩
        rw [hs2 i' j', hs1 i' j', List.countP_cons]
        by_cases hj' : j' = h - 1 - j
        · simp only [hj', if_true, beq_self_eq_true, if_pos rfl]
          ring
        · have hbe : (h - 1 - j == j') = false := by simp [beq_iff_eq]; omega
          simp [hj', hbe]

theorem count_range_eq (t n : ℕ) : (List.range n).count t = if t < n then 1 else 0 := by
  induction n with
  | zero => simp
  | succ n ih =>
      rw [List.range_succ, List.count_append, ih]
      rcases Nat.lt_trichotomy t n with h | h | h
      · have hbe : (n == t) = false := by simp [beq_iff_eq]; omega
        rw [if_pos h, if_pos (by omega)]
        simp [List.count_cons, hbe]
      · subst h
        rw [if_neg (by omega), if_pos (by omega)]
        simp [List.count_cons]
      · have hbe : (n == t) = false := by simp [beq_iff_eq]; omega
        rw [if_neg (by omega), if_neg (by omega)]
        simp [List.count_cons, hbe]

theorem count_beq_range (t n : ℕ) :
    (List.range n).countP (fun k => k == t) = if t < n then 1 else 0 := by
  induction n with
  | zero => simp
  | succ n ih =>
      rw [List.range_succ, List.countP_append, ih]
      rcases Nat.lt_trichotomy t n with h | h | h
      · have hbe : (n == t) = false := by simp [beq_iff_eq]; omega
        rw [if_pos h, if_pos (by omega)]
        simp [List.countP_cons, hbe]
      · subst h
        rw [if_neg (by omega), if_pos (by omega)]
        simp [List.countP_cons]
      · have hbe : (n == t) = false := by simp [beq_iff_eq]; omega
        rw [if_neg (by omega), if_neg (by omega)]
        simp [List.countP_cons, hbe]

theorem countP_row (h j' : ℕ) :
    (List.range h).countP (fun jj => h - 1 - jj == j') = if j' < h then 1 else 0 := by
  by_cases hj : j' < h
  · have hcg : ∀ a ∈ List.range h,
        ((h - 1 - a == j') = true ↔ (a == h - 1 - j') = true) := by
      intro a ha
      simp only [List.mem_range] at ha
      simp only [beq_iff_eq]
      omega
    rw [List.countP_congr hcg, count_beq_range, if_pos hj, if_pos (by omega)]
  · have hcg : ∀ a ∈ List.range h,
        ((h - 1 - a == j') = true ↔ ((fun _ : ℕ => false) a = true)) := by
      intro a ha
      simp only [List.mem_range] at ha
      simp only [beq_iff_eq]
      constructor
      · intro hEq; omega
      · intro hf; exact absurd hf (by simp)
    rw [List.countP_congr hcg, if_neg hj]
    simp [List.countP_false]

theorem pass_addBuf (qpow : ℚ → ℚ → ℚ) (qsqrt : ℚ → ℚ) (scene : Scene)
    (opts : DistributionRaytraceOptions) (B D : ImageBuffer) (n : ℕ) :
    dist_raytrace_scene_progressive qpow qsqrt scene opts (addBuf B D) n =
      (dist_raytrace_scene_progressive qpow qsqrt scene opts D n).map
        (fun r => (addBuf B r.1, r.2)) := by
  unfold dist_raytrace_scene_progressive
  exact gridLoop_addBuf qpow qsqrt scene opts D.width D.height B (List.range D.height) D n

theorem pass_some (qpow : ℚ → ℚ → ℚ) (qsqrt : ℚ → ℚ) (scene : Scene)
    (opts : DistributionRaytraceOptions) (b : ImageBuffer) (n : ℕ) (b' : ImageBuffer)
    (n' : ℕ)
    (hres : dist_raytrace_scene_progressive qpow qsqrt scene opts b n = some (b', n')) :
    b'.width = b.width ∧ b'.height = b.height ∧
      ∀ i' j', b'.samples i' j' = b.samples i' j' +
        opts.samples * (if i' < b.width then 1 else 0) *
          (if j' < b.height then 1 else 0) := by
  unfold dist_raytrace_scene_progressive at hres
  obtain ⟨hw, hh, hs⟩ := gridLoop_some qpow qsqrt scene opts b.width b.height
    (List.range b.height) b n b' n' hres
  exact ⟨hw, hh, fun i' j' => by rw [hs i' j', count_range_eq, countP_row]⟩

/-- C8: the pixel driver only adds into the accumulation buffer.  With `d1`,
`d2` and `d12` the zero-based deltas of an `S1`-sample pass, a follow-up
`S2`-sample pass and a combined `S1+S2`-sample pass, a pass from any buffer
`B` lands exactly at `B` plus its delta; each in-range pixel's sample count
grows by exactly the pass's sample count, so the two-pass count field equals
the combined-pass count field unconditionally; and when the passes draw the
same samples (`d1.accum + d2.accum = d12.accum` pixelwise) the two-pass
running-sum field equals the combined-pass running-sum field exactly. -/
theorem claim8_progressive_accumulation :
    ∀ (qpow : ℚ → ℚ → ℚ) (qsqrt : ℚ → ℚ) (scene : Scene)
      (o1 o2 o12 : DistributionRaytraceOptions) (B : ImageBuffer) (n : ℕ)
      (d1 d2 d12 : ImageBuffer) (n1 n2 n12 : ℕ),
      dist_raytrace_scene_progressive qpow qsqrt scene o1 (zeroOf B) n = some (d1, n1) →
      dist_raytrace_scene_progressive qpow qsqrt scene o2 (zeroOf B) n1 = some (d2, n2) →
      dist_raytrace_scene_progressive qpow qsqrt scene o12 (zeroOf B) n =
        some (d12, n12) →
      o12.samples = o1.samples + o2.samples →
      (∀ i j, d1.accum i j + d2.accum i j = d12.accum i j) →
      (dist_raytrace_scene_progressive qpow qsqrt scene o1 B n =
        some (addBuf B d1, n1)) ∧
      (dist_raytrace_scene_progressive qpow qsqrt scene o2 (addBuf B d1) n1 =
        some (addBuf (addBuf B d1) d2, n2)) ∧
      (dist_raytrace_scene_progressive qpow qsqrt scene o12 B n =
        some (addBuf B d12, n12)) ∧
      (∀ i j, i < B.width → j < B.height → d1.samples i j = o1.samples) ∧
      (∀ i j, (addBuf (addBuf B d1) d2).samples i j = (addBuf B d12).samples i j) ∧
      (∀ i j, (addBuf (addBuf B d1) d2).accum i j = (addBuf B d12).accum i j) := by
  intro qpow qsqrt scene o1 o2 o12 B n d1 d2 d12 n1 n2 n12 h1 h2 h12 hS hsame
  obtain ⟨hw1, hh1, hs1⟩ := pass_some qpow qsqrt scene o1 (zeroOf B) n d1 n1 h1
  obtain ⟨hw2, hh2, hs2⟩ := pass_some qpow qsqrt scene o2 (zeroOf B) n1 d2 n2 h2
  obtain ⟨hw12, hh12, hs12⟩ := pass_some qpow qsqrt scene o12 (zeroOf B) n d12 n12 h12
  dsimp only [zeroOf] at hw1 hh1 hw2 hh2 hw12 hh12
  have hzz : zeroOf (addBuf B d1) = zeroOf B := by
    unfold zeroOf addBuf
    rw [hw1, hh1]
  refine ⟨?_, ?_, ?_, ?_, ?_, ?_⟩
  · have hA := pass_addBuf qpow qsqrt scene o1 B (zeroOf B) n
    rw [addBuf_zeroOf] at hA
    rw [hA, h1]
    rfl
  · have hA := pass_addBuf qpow qsqrt scene o2 (addBuf B d1) (zeroOf (addBuf B d1)) n1
    rw [addBuf_zeroOf] at hA
    rw [hA, hzz, h2]
    rfl
  · have hA := pass_addBuf qpow qsqrt scene o12 B (zeroOf B) n
    rw [addBuf_zeroOf] at hA
    rw [hA, h12]
    rfl
  · intro i j hi hj
    have e1 := hs1 i j
    dsimp only [zeroOf] at e1
    rw [if_pos hi, if_pos hj] at e1
    simpa using e1
  · intro i j
    dsimp only [addBuf]
    have e1 := hs1 i j
    have e2 := hs2 i j
    have e12 := hs12 i j
    dsimp only [zeroOf] at e1 e2 e12
    rw [e1, e2, e12, hS]
    ring
  · intro i j
    dsimp only [addBuf]
    rw [Vec3.add_assoc, hsame i j]

/-- C8 witness: the theorem applied to two one-sample passes and one two-sample
pass over a one-by-one buffer on the miss-everything scene, every hypothesis
discharged by evaluation. -/
theorem claim8_witness :
    (dist_raytrace_scene_progressive (fun a _ => a) (fun q => q) missScene probeOpts
        (zeroOf demoBuf) 0 =
      some (bumpPixel (zeroOf demoBuf) 0 0 ⟨1, 2, 3⟩, 2)) ∧
    (dist_raytrace_scene_progressive (fun a _ => a) (fun q => q) missScene probeOpts
        (zeroOf demoBuf) 2 =
      some (bumpPixel (zeroOf demoBuf) 0 0 ⟨1, 2, 3⟩, 4)) ∧
    (dist_raytrace_scene_progressive (fun a _ => a) (fun q => q) missScene probeOpts2
        (zeroOf demoBuf) 0 =
      some (bumpPixel (bumpPixel (zeroOf demoBuf) 0 0 ⟨1, 2, 3⟩) 0 0 ⟨1, 2, 3⟩, 4)) ∧
    (probeOpts2.samples = probeOpts.samples + probeOpts.samples) ∧
    (∀ i j, (bumpPixel (zeroOf demoBuf) 0 0 ⟨1, 2, 3⟩).accum i j +
        (bumpPixel (zeroOf demoBuf) 0 0 ⟨1, 2, 3⟩).accum i j =
      (bumpPixel (bumpPixel (zeroOf demoBuf) 0 0 ⟨1, 2, 3⟩) 0 0 ⟨1, 2, 3⟩).accum i j) ∧
    ((dist_raytrace_scene_progressive (fun a _ => a) (fun q => q) missScene probeOpts
        demoBuf 0 =
      some (addBuf demoBuf (bumpPixel (zeroOf demoBuf) 0 0 ⟨1, 2, 3⟩), 2)) ∧
    (dist_raytrace_scene_progressive (fun a _ => a) (fun q => q) missScene probeOpts
        (addBuf demoBuf (bumpPixel (zeroOf demoBuf) 0 0 ⟨1, 2, 3⟩)) 2 =
      some (addBuf (addBuf demoBuf (bumpPixel (zeroOf demoBuf) 0 0 ⟨1, 2, 3⟩))
          (bumpPixel (zeroOf demoBuf) 0 0 ⟨1, 2, 3⟩), 4)) ∧
    (dist_raytrace_scene_progressive (fun a _ => a) (fun q => q) missScene probeOpts2
        demoBuf 0 =
      some (addBuf demoBuf
          (bumpPixel (bumpPixel (zeroOf demoBuf) 0 0 ⟨1, 2, 3⟩) 0 0 ⟨1, 2, 3⟩), 4)) ∧
    (∀ i j, i < demoBuf.width → j < demoBuf.height →
      (bumpPixel (zeroOf demoBuf) 0 0 ⟨1, 2, 3⟩).samples i j = probeOpts.samples) ∧
    (∀ i j, (addBuf (addBuf demoBuf (bumpPixel (zeroOf demoBuf) 0 0 ⟨1, 2, 3⟩))
          (bumpPixel (zeroOf demoBuf) 0 0 ⟨1, 2, 3⟩)).samples i j =
      (addBuf demoBuf
          (bumpPixel (bumpPixel (zeroOf demoBuf) 0 0 ⟨1, 2, 3⟩) 0 0 ⟨1, 2, 3⟩)).samples
        i j) ∧
    (∀ i j, (addBuf (addBuf demoBuf (bumpPixel (zeroOf demoBuf) 0 0 ⟨1, 2, 3⟩))
          (bumpPixel (zeroOf demoBuf) 0 0 ⟨1, 2, 3⟩)).accum i j =
      (addBuf demoBuf
          (bumpPixel (bumpPixel (zeroOf demoBuf) 0 0 ⟨1, 2, 3⟩) 0 0 ⟨1, 2, 3⟩)).accum
        i j)) := by
  have w1 : dist_raytrace_scene_progressive (fun a _ => a) (fun q => q) missScene
      probeOpts (zeroOf demoBuf) 0 =
      some (bumpPixel (zeroOf demoBuf) 0 0 ⟨1, 2, 3⟩, 2) := rfl
  have w2 : dist_raytrace_scene_progressive (fun a _ => a) (fun q => q) missScene
      probeOpts (zeroOf demoBuf) 2 =
      some (bumpPixel (zeroOf demoBuf) 0 0 ⟨1, 2, 3⟩, 4) := rfl
  have w12 : dist_raytrace_scene_progressive (fun a _ => a) (fun q => q) missScene
      probeOpts2 (zeroOf demoBuf) 0 =
      some (bumpPixel (bumpPixel (zeroOf demoBuf) 0 0 ⟨1, 2, 3⟩) 0 0 ⟨1, 2, 3⟩, 4) := rfl
  have hS : probeOpts2.samples = probeOpts.samples + probeOpts.samples := rfl
  have hsame : ∀ i j, (bumpPixel (zeroOf demoBuf) 0 0 ⟨1, 2, 3⟩).accum i j +
      (bumpPixel (zeroOf demoBuf) 0 0 ⟨1, 2, 3⟩).accum i j =
      (bumpPixel (bumpPixel (zeroOf demoBuf) 0 0 ⟨1, 2, 3⟩) 0 0 ⟨1, 2, 3⟩).accum i j := by
    intro i j
    by_cases hij : (i = 0 ∧ j = 0) <;>
      simp [bumpPixel, zeroOf, demoBuf, hij, Vec3.zero3f_add, Vec3.add_def, zero3f,
        Vec3.mk.injEq]
  exact ⟨w1, w2, w12, hS, hsame,
    claim8_progressive_accumulation (fun a _ => a) (fun q => q) missScene probeOpts
      probeOpts probeOpts2 demoBuf 0 (bumpPixel (zeroOf demoBuf) 0 0 ⟨1, 2, 3⟩)
      (bumpPixel (zeroOf demoBuf) 0 0 ⟨1, 2, 3⟩)
      (bumpPixel (bumpPixel (zeroOf demoBuf) 0 0 ⟨1, 2, 3⟩) 0 0 ⟨1, 2, 3⟩) 2 4 4
      w1 w2 w12 hS hsame⟩
